import Mathlib

/-!
Verification development for the asynchronous image loading, caching and
memory-supervision subsystem of the annotator repository
(src/libs/image_cache.py, src/libs/async_image_loader.py,
src/libs/memory_manager.py).

Modelling conventions:
* A file system is an association list from paths to file metadata
  (modification time, byte size, decodable content, readability);
  os.stat / os.path.exists / os.path.getsize are reads of this list.
* ImageCacheItem._compute_hash builds an md5 string from
  (path, st_mtime, st_size) and returns the empty string when os.stat
  raises.  The hash is modelled as the injective fingerprint
  Option (mtime, size), with none standing for the empty string
  (the empty string is only produced when the file is missing, and the
  string for an existing file is never empty, so equality of the md5
  strings coincides with equality of these fingerprints up to md5
  collisions, which the model treats as absent).
* OrderedDict is an association list whose head is the oldest
  (least-recently-used) entry; move_to_end appends at the tail.
* current_memory_mb is a Python float accumulating file_size/(1024*1024)
  terms; those terms are exact dyadic rationals, so the field is modelled
  exactly, scaled by 1024*1024 into whole bytes (an Int, since Python
  floats are signed); every comparison against max_memory_mb is scaled
  accordingly.
* Wall-clock values (time.time()) are passed in as explicit Nat arguments;
  they only land in bookkeeping fields and never steer control flow.
* Qt mutexes guard the bodies; the model is the sequential semantics of
  each guarded body.
-/

namespace Annotator

/-! ## File system model -/

structure FileStat where
  mtime : Nat
  size : Nat
  content : Nat
  readable : Bool
deriving DecidableEq

abbrev FS := List (String × FileStat)

/-- Generic association-list lookup of the first entry with key p. -/
def lookupKey {α : Type} (p : String) : List (String × α) → Option α
  | [] => none
  | (q, v) :: rest => if q = p then some v else lookupKey p rest

/-- Generic association-list removal of the first entry with key p. -/
def eraseKey {α : Type} (p : String) : List (String × α) → List (String × α)
  | [] => []
  | (q, v) :: rest => if q = p then rest else (q, v) :: eraseKey p rest

/-- Keys of an association list, in order. -/
def keys {α : Type} (l : List (String × α)) : List String := l.map (·.1)

/-- os.stat / os.path.exists / os.path.getsize against the modelled file
system: some when the path exists, none when the call raises. -/
def statFile (fs : FS) (p : String) : Option FileStat := lookupKey p fs

/-! ## Images -/

/-- A decoded QImage: an abstract payload plus its isNull flag. -/
structure Image where
  val : Nat
  isNull : Bool
deriving DecidableEq

/-- A QPixmap, identified by the payload it was converted from. -/
abbrev Pixmap := Nat

/-- QImageReader(path).read(): a null image when the path is missing or
the bytes do not decode, otherwise the decoded content. -/
def readImage (fs : FS) (p : String) : Image :=
  match statFile fs p with
  | none => ⟨0, true⟩
  | some st => if st.readable then ⟨st.content, false⟩ else ⟨0, true⟩

/-! ## ImageCacheItem (src/libs/image_cache.py lines 19-43) -/

/-- ImageCacheItem._compute_hash: fingerprint of the file as it currently
is on disk; none models the empty-string hash produced when os.stat
raises. -/
def computeHash (fs : FS) (p : String) : Option (Nat × Nat) :=
  (statFile fs p).map (fun st => (st.mtime, st.size))

structure ImageCacheItem where
  image_path : String
  image : Image
  pixmap : Pixmap
  file_size : Nat
  last_access : Nat
  access_count : Nat
  file_hash : Option (Nat × Nat)
deriving DecidableEq

/-- ImageCacheItem.__init__, which sets access_count to 1 and computes
file_hash from the file system at creation time. -/
def mkImageCacheItem (fs : FS) (p : String) (img : Image) (pix : Pixmap)
    (file_size last_access : Nat) : ImageCacheItem :=
  ⟨p, img, pix, file_size, last_access, 1, computeHash fs p⟩

/-! ## ImageCacheManager state (src/libs/image_cache.py lines 95-117) -/

/-- The mutable state of one ImageCacheManager.  The stats dictionary is
flattened into the four counter fields.  current_memory_bytes is the
current_memory_mb float scaled by 1024*1024 (see the module comment). -/
structure CacheState where
  max_memory_mb : Nat
  max_items : Nat
  cache : List (String × ImageCacheItem)
  current_memory_bytes : Int
  hits : Nat
  misses : Nat
  evictions : Nat
  preloaded : Nat
deriving DecidableEq

/-- ImageCacheManager.__init__(max_memory_mb, max_items). -/
def initCache (mm mi : Nat) : CacheState :=
  ⟨mm, mi, [], 0, 0, 0, 0, 0⟩

/-- Sum of the cached entries byte sizes (the quantity the invariant in
the specification speaks about). -/
def sumBytes (l : List (String × ImageCacheItem)) : Nat :=
  (l.map (fun e => e.2.file_size)).sum

/-- ImageCacheManager._remove_item (lines 222-228). -/
def removeItem (s : CacheState) (p : String) : CacheState :=
  match lookupKey p s.cache with
  | some it =>
    { s with cache := eraseKey p s.cache,
             current_memory_bytes := s.current_memory_bytes - it.file_size,
             evictions := s.evictions + 1 }
  | none => s

/-- First loop of _cleanup_cache (lines 233-235): while the item count
exceeds max_items, remove the oldest entry.  fuel bounds the iteration
count; each iteration removes one entry, so fuel = cache length makes the
recursion equivalent to the Python while loop. -/
def cleanupByItems : Nat → CacheState → CacheState
  | 0, s => s
  | fuel + 1, s =>
    if s.max_items < s.cache.length then
      match s.cache with
      | [] => s
      | (p, _) :: _ => cleanupByItems fuel (removeItem s p)
    else s

/-- Second loop of _cleanup_cache (lines 238-241): while the tracked
memory exceeds the limit and more than one entry remains, remove the
oldest entry. -/
def cleanupByMemory : Nat → CacheState → CacheState
  | 0, s => s
  | fuel + 1, s =>
    if (s.max_memory_mb : Int) * 1048576 < s.current_memory_bytes ∧ 1 < s.cache.length then
      match s.cache with
      | [] => s
      | (p, _) :: _ => cleanupByMemory fuel (removeItem s p)
    else s

/-- ImageCacheManager._cleanup_cache (lines 230-241). -/
def cleanupCache (s : CacheState) : CacheState :=
  let s1 := cleanupByItems s.cache.length s
  cleanupByMemory s1.cache.length s1

/-- ImageCacheManager.get_image (lines 119-146).  Returns the optional
(image, pixmap) pair together with the state after the call. -/
def getImage (fs : FS) (now : Nat) (s : CacheState) (p : String) :
    Option (Image × Pixmap) × CacheState :=
  match statFile fs p with
  | none => (none, s)
  | some _ =>
    match lookupKey p s.cache with
    | some item =>
      if computeHash fs p = item.file_hash then
        let item2 := { item with last_access := now, access_count := item.access_count + 1 }
        (some (item.image, item.pixmap),
         { s with cache := eraseKey p s.cache ++ [(p, item2)], hits := s.hits + 1 })
      else
        let s1 := removeItem s p
        (none, { s1 with misses := s1.misses + 1 })
    | none => (none, { s with misses := s.misses + 1 })

/-- ImageCacheManager.put_image (lines 148-174). -/
def putImage (fs : FS) (now : Nat) (s : CacheState) (p : String)
    (img : Image) (pix : Pixmap) : CacheState :=
  if img.isNull then s
  else
    match statFile fs p with
    | none => s
    | some st =>
      let item := mkImageCacheItem fs p img pix st.size now
      let s1 := if (lookupKey p s.cache).isSome then removeItem s p else s
      let s2 := { s1 with cache := s1.cache ++ [(p, item)],
                          current_memory_bytes := s1.current_memory_bytes + st.size }
      cleanupCache s2

/-- ImageCacheManager.is_cached (lines 176-179): a pure membership test on
the cache map; it takes no file-system argument and returns only a Bool,
so it can neither consult the disk nor change any state. -/
def isCached (s : CacheState) (p : String) : Bool :=
  (lookupKey p s.cache).isSome

/-- ImageCacheManager.set_memory_limit (lines 268-271). -/
def setMemoryLimit (s : CacheState) (mm : Nat) : CacheState :=
  cleanupCache { s with max_memory_mb := mm }

/-- ImageCacheManager.set_max_items (lines 273-276). -/
def setMaxItems (s : CacheState) (mi : Nat) : CacheState :=
  cleanupCache { s with max_items := mi }

/-- Python round(x, 2), modelled as rounding to the nearest hundredth
(ties are not exercised by any theorem below, so the tie-breaking
convention is immaterial). -/
def round2 (q : ℚ) : ℚ := ((round (q * 100) : ℤ) : ℚ) / 100

/-- The dictionary returned by ImageCacheManager.get_cache_stats
(lines 251-266). -/
structure CacheStatsReport where
  items_count : Nat
  memory_mb : ℚ
  max_memory_mb : Nat
  hit_rate : ℚ
  hits : Nat
  misses : Nat
  evictions : Nat
  preloaded : Nat
deriving DecidableEq

/-- ImageCacheManager.get_cache_stats (lines 251-266): the hit rate is a
percentage, hits / total * 100 rounded to two decimals, and 0 when there
have been no requests. -/
def getCacheStats (s : CacheState) : CacheStatsReport :=
  let total := s.hits + s.misses
  { items_count := s.cache.length
    memory_mb := round2 ((s.current_memory_bytes : ℚ) / 1048576)
    max_memory_mb := s.max_memory_mb
    hit_rate := if 0 < total then round2 ((s.hits : ℚ) / (total : ℚ) * 100) else 0
    hits := s.hits
    misses := s.misses
    evictions := s.evictions
    preloaded := s.preloaded }

/-- One iteration of ImagePreloader.run (lines 64-92) for a single path,
with the imageLoaded signal connected to
ImageCacheManager._on_image_preloaded (lines 206-220): already-cached
paths are skipped entirely; otherwise the image is read and, when it
decodes, put into the cache and the preloaded counter incremented. -/
def preloaderStep (fs : FS) (now : Nat) (s : CacheState) (p : String) : CacheState :=
  if isCached s p then s
  else
    let img := readImage fs p
    if img.isNull then s
    else
      let s2 := putImage fs now s p img img.val
      { s2 with preloaded := s2.preloaded + 1 }

/-! ## Operation sequences over the cache -/

/-- One client-visible cache operation, carrying the file system as it is
at the moment of the call (files may change between operations). -/
inductive CacheOp where
  | put (fs : FS) (now : Nat) (p : String) (img : Image) (pix : Pixmap)
  | get (fs : FS) (now : Nat) (p : String)
  | setMax (mi : Nat)
  | setMemory (mm : Nat)
deriving DecidableEq

def applyCacheOp (s : CacheState) : CacheOp → CacheState
  | .put fs now p img pix => putImage fs now s p img pix
  | .get fs now p => (getImage fs now s p).2
  | .setMax mi => setMaxItems s mi
  | .setMemory mm => setMemoryLimit s mm

def runCacheOps (ops : List CacheOp) (s : CacheState) : CacheState :=
  ops.foldl applyCacheOp s

/-! ## AsyncImageLoader (src/libs/async_image_loader.py)

The loader owns a PriorityQueue (task_queue) and a CPython
ThreadPoolExecutor.  load_image pushes the task onto the priority queue
AND submits it to the executor; _process_queue, the timer callback that
would drain the priority queue, has a pass body, so the queue is never
consumed.  The executor work queue is FIFO, so with a single idle worker
tasks run and complete in submission order.  The priority queue is
modelled as its contents kept in ascending priority order (the order a
consumer of the heap would pop, LoadTask.__lt__ comparing priorities);
the executor work queue is modelled as the FIFO list of submitted tasks. -/

/-- LoadTask (lines 19-34).  The callback is identified by an abstract
handle (none when no callback is supplied); created_time is the clock at
submission. -/
structure LoadTask where
  image_path : String
  priority : Int
  callback : Option Nat
  metadata : List (String × Nat)
  created_time : Nat
  retry_count : Nat
  max_retries : Nat
deriving DecidableEq

/-- LoadTask.__init__ : retry_count starts at 0 and max_retries at 3. -/
def mkLoadTask (p : String) (priority : Int) (cb : Option Nat)
    (md : List (String × Nat)) (now : Nat) : LoadTask :=
  ⟨p, priority, cb, md, now, 0, 3⟩

/-- Observable loader effects: Qt signal emissions and invocations of a
per-task callback.  The worker (lines 267-271) is the only place that
calls task.callback. -/
inductive LoaderEvent where
  | imageLoaded (path : String) (image : Image) (pixmap : Pixmap)
  | imageLoadFailed (path : String) (error : String)
  | callbackInvoked (path : String) (image : Image) (pixmap : Pixmap) (callback : Nat)
  | allImagesLoaded
deriving DecidableEq

def isCallbackEvent : LoaderEvent → Bool
  | .callbackInvoked _ _ _ _ => true
  | _ => false

/-- The mutable state of one AsyncImageLoader (lines 62-99); statistics
flattened into fields, loading_futures as its list of keys. -/
structure LoaderState where
  max_workers : Nat
  loading_futures : List String
  task_queue : List LoadTask
  executorWorkQueue : List LoadTask
  total_tasks : Nat
  completed_tasks : Nat
  total_loaded : Nat
  total_failed : Nat
  cache_hits : Nat
  enabled_formats : List String
  max_image_size : Nat
deriving DecidableEq

/-- AsyncImageLoader.__init__(max_workers). -/
def initLoader (workers : Nat) : LoaderState :=
  ⟨workers, [], [], [], 0, 0, 0, 0, 0,
   [".jpg", ".jpeg", ".png", ".bmp", ".gif", ".tif", ".tiff", ".webp"],
   50 * 1024 * 1024⟩

/-- Stable insertion into the ascending-priority model of the
PriorityQueue. -/
def pqInsert (t : LoadTask) : List LoadTask → List LoadTask
  | [] => [t]
  | u :: rest => if t.priority < u.priority then t :: u :: rest else u :: pqInsert t rest

/-- Lower-casing a string, Char.toLower per character. -/
def lowerStr (s : String) : String := String.mk (s.toList.map Char.toLower)

/-- The extension part of os.path.splitext for an ordinary file name: the
suffix starting at the last dot, empty when the name has no dot. -/
def extOf (p : String) : String :=
  let rev := p.toList.reverse
  if rev.contains '.' then
    String.mk ('.' :: (rev.takeWhile (fun c => c ≠ '.')).reverse)
  else ""

/-- AsyncImageLoader._is_supported_format (lines 308-311). -/
def isSupportedFormat (ls : LoaderState) (p : String) : Bool :=
  ls.enabled_formats.contains (lowerStr (extOf p))

/-- The observable outcome of one load_image call: its return value, the
events it emitted, and the loader and cache states after it. -/
structure LoadOutcome where
  accepted : Bool
  events : List LoaderEvent
  loader : LoaderState
  cache : CacheState
deriving DecidableEq

/-- AsyncImageLoader.load_image (lines 101-157), with a cache manager
attached (as in the global get_async_loader instance).  On a cache hit
the imageLoaded signal is emitted and cache_hits incremented; the
supplied callback parameter is not consulted on this path.  On a miss the
task is pushed onto the priority queue and submitted to the executor. -/
def loadImage (fs : FS) (now : Nat) (ls : LoaderState) (cs : CacheState)
    (p : String) (priority : Int) (callback : Option Nat)
    (metadata : List (String × Nat)) : LoadOutcome :=
  match statFile fs p with
  | none => ⟨false, [.imageLoadFailed p "File does not exist"], ls, cs⟩
  | some st =>
    if isSupportedFormat ls p = false then
      ⟨false, [.imageLoadFailed p "Unsupported image format"], ls, cs⟩
    else if ls.max_image_size < st.size then
      ⟨false, [.imageLoadFailed p "File too large"], ls, cs⟩
    else if ls.loading_futures.contains p then
      ⟨true, [], ls, cs⟩
    else
      let r := getImage fs now cs p
      match r.1 with
      | some (img, pix) =>
        ⟨true, [.imageLoaded p img pix],
         { ls with cache_hits := ls.cache_hits + 1 }, r.2⟩
      | none =>
        let task := mkLoadTask p priority callback metadata now
        ⟨true, [],
         { ls with task_queue := pqInsert task ls.task_queue,
                   executorWorkQueue := ls.executorWorkQueue ++ [task],
                   loading_futures := ls.loading_futures ++ [p],
                   total_tasks := ls.total_tasks + 1 }, r.2⟩

/-- AsyncImageLoader._process_queue (lines 302-306): the timer callback
body is pass; the priority queue is never consumed. -/
def processQueue (ls : LoaderState) : LoaderState := ls

/-- CPython ThreadPoolExecutor runs its FIFO work queue in submission
order; with max_workers = 1 and the worker idle at submission time, the
queued tasks complete in exactly this order.  Returns the priorities in
completion order. -/
def completionOrder (ls : LoaderState) : List Int :=
  ls.executorWorkQueue.map (fun t => t.priority)

/-- ImageLoadResult (lines 37-48), restricted to the fields the worker
fills on the path it actually reaches. -/
structure ImageLoadResult where
  image_path : String
  success : Bool
  error : Option String
deriving DecidableEq

/-- The observable outcome of one worker invocation. -/
structure WorkerOutcome where
  result : ImageLoadResult
  events : List LoaderEvent
  loader : LoaderState
  cache : CacheState
deriving DecidableEq

/-- The error string of the NameError raised in the worker try block;
Python renders it with quotes around QSize, omitted here. -/
def errQSize : String := "Exception during loading: name QSize is not defined"

/-- AsyncImageLoader._load_image_worker (lines 233-300).  The try block
evaluates QSize(4096, 4096) at line 243, but async_image_loader.py never
imports QSize, so every invocation raises NameError before reading the
file; the except branch emits imageLoadFailed and returns a failure
result, and the finally block deletes the future, increments
completed_tasks and fires allImagesLoaded once all submitted tasks have
completed.  No path re-enqueues the task: retry_count and max_retries
are never consulted, and the cache is not touched. -/
def loadImageWorker (task : LoadTask) (ls : LoaderState) (cs : CacheState) :
    WorkerOutcome :=
  let ls1 := { ls with
    loading_futures := ls.loading_futures.filter (fun q => q ≠ task.image_path),
    completed_tasks := ls.completed_tasks + 1 }
  let doneEvents :=
    if ls1.total_tasks ≤ ls1.completed_tasks ∧ 0 < ls1.total_tasks then
      [LoaderEvent.allImagesLoaded]
    else []
  ⟨⟨task.image_path, false, some errQSize⟩,
   LoaderEvent.imageLoadFailed task.image_path errQSize :: doneEvents,
   ls1, cs⟩

/-! ## MemoryManager (src/libs/memory_manager.py)

The monitor samples the resident set size and compares it against the
warning and critical thresholds on every evaluation; the state machine is
level-triggered (there is no edge detection in _monitor_memory).  Cleanup
callbacks are registered as functions taking an emergency flag that
defaults to false (src/core/application.py line 358), so the bare
callback() calls in _free_caches invoke them with emergency=false. -/

inductive MonEvent where
  | memoryWarning
  | memoryCritical
  | cleanupInvoked (cb : Nat) (emergency : Bool)
  | memoryFreed (mb : Nat)
  | gcRequested
deriving DecidableEq

/-- The mutable state of one MemoryManager (lines 127-167): thresholds,
the two object pools (as their current sizes; each pooled QImage is
estimated at 0.1 MB and each QPixmap at 0.5 MB by _free_caches), the
recently_freed deque (as its length), and the registered cleanup
callbacks, each carried with the whole-megabyte estimate it returns.
Every quantity the float freed_mb accumulates is an exact multiple of
0.1 MB, so memory_freed_dmb tracks the stats value exactly, in tenths of
a megabyte. -/
structure MonState where
  warning_threshold_mb : Nat
  critical_threshold_mb : Nat
  image_pool : Nat
  pixmap_pool : Nat
  recently_freed : Nat
  cleanup_callbacks : List (Nat × Nat)
  peak_memory_mb : Nat
  gc_count : Nat
  memory_freed_dmb : Nat
  emergency_mode : Bool
deriving DecidableEq

/-- MemoryManager.__init__(warning_threshold_mb, critical_threshold_mb)
with the given callbacks registered: both pools are pre-allocated with
initial_size 5. -/
def initMon (w c : Nat) (cbs : List (Nat × Nat)) : MonState :=
  ⟨w, c, 5, 5, 0, cbs, 0, 0, 0, false⟩

/-- MemoryManager._free_caches (lines 228-255): empty both pools
(0.1 MB / 0.5 MB estimates per object, i.e. 1 and 5 tenths), call every
cleanup callback with no argument — hence emergency=false — summing the
estimates they return, and when anything was freed add it to the
statistics and emit memoryFreed with the integer megabyte part
(int truncation, i.e. tenths divided by 10). -/
def freeCaches (st : MonState) : MonState × List MonEvent :=
  let freedDmb : Nat := st.image_pool * 1 + st.pixmap_pool * 5
      + 10 * (st.cleanup_callbacks.map (fun cb => cb.2)).sum
  let events := st.cleanup_callbacks.map (fun cb => MonEvent.cleanupInvoked cb.1 false)
  let st1 := { st with image_pool := 0, pixmap_pool := 0 }
  if 0 < freedDmb then
    ({ st1 with memory_freed_dmb := st1.memory_freed_dmb + freedDmb },
     events ++ [MonEvent.memoryFreed (freedDmb / 10)])
  else (st1, events)

/-- MemoryManager._emergency_cleanup (lines 257-271): _free_caches, drain
recently_freed, then call every callback with emergency=true (return
values ignored). -/
def emergencyCleanup (st : MonState) : MonState × List MonEvent :=
  let r := freeCaches st
  ({ r.1 with recently_freed := 0 },
   r.2 ++ st.cleanup_callbacks.map (fun cb => MonEvent.cleanupInvoked cb.1 true))

/-- MemoryManager._handle_memory_warning (lines 198-208). -/
def handleMemoryWarning (st : MonState) : MonState × List MonEvent :=
  let r := freeCaches st
  ({ r.1 with gc_count := r.1.gc_count + 1 }, MonEvent.memoryWarning :: r.2)

/-- MemoryManager._handle_critical_memory (lines 210-226). -/
def handleCriticalMemory (st : MonState) : MonState × List MonEvent :=
  let r := emergencyCleanup { st with emergency_mode := true }
  ({ r.1 with gc_count := r.1.gc_count + 3, emergency_mode := false },
   MonEvent.memoryCritical :: r.2)

/-- One _monitor_memory evaluation (lines 169-196) on a sampled resident
size m, with monitoring enabled, the 5-second spacing satisfied and the
periodic 30-second gc pass not due (that pass only emits gcRequested and
never touches the callbacks). -/
def monitorStep (st : MonState) (m : Nat) : MonState × List MonEvent :=
  let st0 := { st with peak_memory_mb := max st.peak_memory_mb m }
  if st0.critical_threshold_mb ≤ m then handleCriticalMemory st0
  else if st0.warning_threshold_mb ≤ m then handleMemoryWarning st0
  else (st0, [])

/-- A sequence of monitor evaluations over a list of memory samples,
collecting all emitted events in order. -/
def monitorRun (st : MonState) : List Nat → MonState × List MonEvent
  | [] => (st, [])
  | m :: rest =>
    let r1 := monitorStep st m
    let r2 := monitorRun r1.1 rest
    (r2.1, r1.2 ++ r2.2)

/-- The subsequence of cleanup-callback invocations, as
(callback, emergency flag) pairs in invocation order. -/
def cleanupTrace (evs : List MonEvent) : List (Nat × Bool) :=
  evs.filterMap (fun e => match e with
    | MonEvent.cleanupInvoked cb em => some (cb, em)
    | _ => none)

/-! ## Association-list lemmas -/

theorem lookupKey_isSome_iff {α : Type} (p : String) (l : List (String × α)) :
    (lookupKey p l).isSome = true ↔ p ∈ keys l := by
  induction l with
  | nil => simp [lookupKey, keys]
  | cons e rest ih =>
    obtain ⟨q, v⟩ := e
    by_cases h : q = p
    · subst h; simp [lookupKey, keys]
    · simp [lookupKey, keys, h, ih, Ne.symm h]

theorem lookupKey_eq_none_iff {α : Type} (p : String) (l : List (String × α)) :
    lookupKey p l = none ↔ p ∉ keys l := by
  rw [← lookupKey_isSome_iff]
  cases lookupKey p l <;> simp

theorem mem_keys_of_lookupKey {α : Type} {p : String} {l : List (String × α)} {v : α}
    (h : lookupKey p l = some v) : p ∈ keys l := by
  rw [← lookupKey_isSome_iff, h]; rfl

theorem eraseKey_sublist {α : Type} (p : String) (l : List (String × α)) :
    List.Sublist (eraseKey p l) l := by
  induction l with
  | nil => simp [eraseKey]
  | cons e rest ih =>
    obtain ⟨q, v⟩ := e
    by_cases h : q = p
    · simp [eraseKey, h]
    · simpa [eraseKey, h] using ih.cons₂ (q, v)

theorem keys_nodup_eraseKey {α : Type} (p : String) {l : List (String × α)}
    (h : (keys l).Nodup) : (keys (eraseKey p l)).Nodup := by
  have hs := List.Sublist.map (fun e : String × α => e.1) (eraseKey_sublist p l)
  simp only [keys] at h ⊢
  exact List.Nodup.sublist hs h

theorem not_mem_keys_eraseKey {α : Type} {p : String} {l : List (String × α)}
    (h : (keys l).Nodup) : p ∉ keys (eraseKey p l) := by
  induction l with
  | nil => simp [eraseKey, keys]
  | cons e rest ih =>
    obtain ⟨q, v⟩ := e
    simp only [keys, List.map_cons, List.nodup_cons] at h
    by_cases hq : q = p
    · subst hq
      simpa [eraseKey, keys] using h.1
    · intro hmem
      simp only [eraseKey, hq, if_false, keys, List.map_cons, List.mem_cons] at hmem
      rcases hmem with h1 | h2
      · exact hq h1.symm
      · exact ih h.2 h2

theorem sumBytes_eraseKey {p : String} {l : List (String × ImageCacheItem)}
    {it : ImageCacheItem} (h : lookupKey p l = some it) :
    sumBytes (eraseKey p l) + it.file_size = sumBytes l := by
  induction l with
  | nil => simp [lookupKey] at h
  | cons e rest ih =>
    obtain ⟨q, v⟩ := e
    by_cases hq : q = p
    · simp only [lookupKey, hq, if_pos rfl] at h
      cases h
      simp [eraseKey, hq, sumBytes, Nat.add_comm]
    · simp only [lookupKey, hq, if_false] at h
      simp only [eraseKey, hq, if_false, sumBytes, List.map_cons, List.sum_cons]
      have := ih h
      simp only [sumBytes] at this
      omega

theorem length_eraseKey {α : Type} {p : String} {l : List (String × α)} {v : α}
    (h : lookupKey p l = some v) : (eraseKey p l).length + 1 = l.length := by
  induction l with
  | nil => simp [lookupKey] at h
  | cons e rest ih =>
    obtain ⟨q, w⟩ := e
    by_cases hq : q = p
    · simp [eraseKey, hq]
    · simp only [lookupKey, hq, if_false] at h
      simp [eraseKey, hq, ih h]

theorem lookupKey_append_last {α : Type} {p : String} {l : List (String × α)} (it : α)
    (h : p ∉ keys l) : lookupKey p (l ++ [(p, it)]) = some it := by
  induction l with
  | nil => simp [lookupKey]
  | cons e rest ih =>
    obtain ⟨q, v⟩ := e
    simp only [keys, List.map_cons, List.mem_cons] at h
    push_neg at h
    have hq : q ≠ p := fun hqp => h.1 hqp.symm
    simp only [List.cons_append, lookupKey, hq, if_false]
    exact ih h.2

theorem keys_nodup_append_singleton {α : Type} {p : String} {l : List (String × α)} (it : α)
    (hnd : (keys l).Nodup) (hp : p ∉ keys l) : (keys (l ++ [(p, it)])).Nodup := by
  simp only [keys, List.map_append, List.map_cons, List.map_nil]
  rw [List.nodup_append]
  refine ⟨hnd, List.nodup_singleton p, fun a ha hb => ?_⟩
  exact hp ((List.mem_singleton.mp hb) ▸ ha)

theorem sumBytes_append_singleton (l : List (String × ImageCacheItem)) (p : String)
    (it : ImageCacheItem) : sumBytes (l ++ [(p, it)]) = sumBytes l + it.file_size := by
  simp [sumBytes]

/-! ## Well-formedness and _cleanup_cache lemmas -/

/-- Well-formedness of a cache state: the tracked byte counter equals the
actual sum of the entry sizes, and the keys are unique (OrderedDict
semantics).  Both hold for every state the operations can reach. -/
def WF (s : CacheState) : Prop :=
  s.current_memory_bytes = (sumBytes s.cache : Int) ∧ (keys s.cache).Nodup

theorem removeItem_max_items (s : CacheState) (p : String) :
    (removeItem s p).max_items = s.max_items := by
  unfold removeItem; cases lookupKey p s.cache <;> rfl

theorem removeItem_max_memory (s : CacheState) (p : String) :
    (removeItem s p).max_memory_mb = s.max_memory_mb := by
  unfold removeItem; cases lookupKey p s.cache <;> rfl

theorem removeItem_WF {s : CacheState} (p : String) (h : WF s) : WF (removeItem s p) := by
  obtain ⟨hb, hnd⟩ := h
  unfold removeItem
  cases hlk : lookupKey p s.cache with
  | none => exact ⟨hb, hnd⟩
  | some it =>
    refine ⟨?_, keys_nodup_eraseKey p hnd⟩
    have hs := sumBytes_eraseKey hlk
    simp only []
    rw [hb]
    omega

theorem removeItem_head {s : CacheState} {p : String} {it : ImageCacheItem}
    {rest : List (String × ImageCacheItem)} (hc : s.cache = (p, it) :: rest) :
    (removeItem s p).cache = rest := by
  unfold removeItem
  rw [hc]
  simp [lookupKey, eraseKey]

theorem cleanupByItems_max_items (fuel : Nat) (s : CacheState) :
    (cleanupByItems fuel s).max_items = s.max_items := by
  induction fuel generalizing s with
  | zero => rfl
  | succ n ih =>
    unfold cleanupByItems
    split
    · split
      · rfl
      · rw [ih, removeItem_max_items]
    · rfl

theorem cleanupByItems_max_memory (fuel : Nat) (s : CacheState) :
    (cleanupByItems fuel s).max_memory_mb = s.max_memory_mb := by
  induction fuel generalizing s with
  | zero => rfl
  | succ n ih =>
    unfold cleanupByItems
    split
    · split
      · rfl
      · rw [ih, removeItem_max_memory]
    · rfl

theorem cleanupByItems_WF (fuel : Nat) {s : CacheState} (h : WF s) :
    WF (cleanupByItems fuel s) := by
  induction fuel generalizing s with
  | zero => exact h
  | succ n ih =>
    unfold cleanupByItems
    split
    · split
      · exact h
      · exact ih (removeItem_WF _ h)
    · exact h

theorem cleanupByItems_length (fuel : Nat) (s : CacheState) (h : s.cache.length ≤ fuel) :
    (cleanupByItems fuel s).cache.length ≤ s.max_items := by
  induction fuel generalizing s with
  | zero =>
    have h0 : s.cache.length = 0 := Nat.le_zero.mp h
    unfold cleanupByItems
    omega
  | succ n ih =>
    unfold cleanupByItems
    by_cases hlt : s.max_items < s.cache.length
    · rw [if_pos hlt]
      cases hc : s.cache with
      | nil => rw [hc] at hlt; simp at hlt
      | cons e rest =>
        obtain ⟨p, it⟩ := e
        have h1 : (removeItem s p).cache = rest := removeItem_head hc
        have h2 := ih (removeItem s p) (by rw [h1]; rw [hc] at h; simpa using Nat.le_of_succ_le_succ h)
        rw [removeItem_max_items] at h2
        exact h2
    · rw [if_neg hlt]
      omega

theorem cleanupByItems_pos (fuel : Nat) (s : CacheState) (hmi : 1 ≤ s.max_items)
    (hpos : 1 ≤ s.cache.length) : 1 ≤ (cleanupByItems fuel s).cache.length := by
  induction fuel generalizing s with
  | zero => exact hpos
  | succ n ih =>
    unfold cleanupByItems
    by_cases hlt : s.max_items < s.cache.length
    · rw [if_pos hlt]
      cases hc : s.cache with
      | nil => rw [hc] at hlt; simp at hlt
      | cons e rest =>
        obtain ⟨p, it⟩ := e
        have h1 : (removeItem s p).cache = rest := removeItem_head hc
        refine ih (removeItem s p) ?_ ?_
        · rw [removeItem_max_items]; exact hmi
        · rw [h1]; rw [hc] at hlt; simp at hlt; omega
    · rw [if_neg hlt]
      exact hpos

theorem cleanupByItems_suffix (fuel : Nat) (s : CacheState) :
    List.IsSuffix (cleanupByItems fuel s).cache s.cache := by
  induction fuel generalizing s with
  | zero => exact List.suffix_refl _
  | succ n ih =>
    unfold cleanupByItems
    by_cases hlt : s.max_items < s.cache.length
    · rw [if_pos hlt]
      cases hc : s.cache with
      | nil => rw [hc] at hlt; simp at hlt
      | cons e rest =>
        obtain ⟨p, it⟩ := e
        have h1 : (removeItem s p).cache = rest := removeItem_head hc
        have h2 := ih (removeItem s p)
        rw [h1] at h2
        exact h2.trans (List.suffix_cons (p, it) rest)
    · rw [if_neg hlt]

theorem cleanupByMemory_max_items (fuel : Nat) (s : CacheState) :
    (cleanupByMemory fuel s).max_items = s.max_items := by
  induction fuel generalizing s with
  | zero => rfl
  | succ n ih =>
    unfold cleanupByMemory
    split
    · split
      · rfl
      · rw [ih, removeItem_max_items]
    · rfl

theorem cleanupByMemory_max_memory (fuel : Nat) (s : CacheState) :
    (cleanupByMemory fuel s).max_memory_mb = s.max_memory_mb := by
  induction fuel generalizing s with
  | zero => rfl
  | succ n ih =>
    unfold cleanupByMemory
    split
    · split
      · rfl
      · rw [ih, removeItem_max_memory]
    · rfl

theorem cleanupByMemory_WF (fuel : Nat) {s : CacheState} (h : WF s) :
    WF (cleanupByMemory fuel s) := by
  induction fuel generalizing s with
  | zero => exact h
  | succ n ih =>
    unfold cleanupByMemory
    split
    · split
      · exact h
      · exact ih (removeItem_WF _ h)
    · exact h

theorem cleanupByMemory_post (fuel : Nat) (s : CacheState) (h : s.cache.length ≤ fuel) :
    (cleanupByMemory fuel s).current_memory_bytes
      ≤ ((cleanupByMemory fuel s).max_memory_mb : Int) * 1048576
    ∨ (cleanupByMemory fuel s).cache.length ≤ 1 := by
  induction fuel generalizing s with
  | zero =>
    have h0 : s.cache.length = 0 := Nat.le_zero.mp h
    unfold cleanupByMemory
    omega
  | succ n ih =>
    unfold cleanupByMemory
    by_cases hg : (s.max_memory_mb : Int) * 1048576 < s.current_memory_bytes ∧ 1 < s.cache.length
    · rw [if_pos hg]
      cases hc : s.cache with
      | nil => rw [hc] at hg; simp at hg
      | cons e rest =>
        obtain ⟨p, it⟩ := e
        have h1 : (removeItem s p).cache = rest := removeItem_head hc
        refine ih (removeItem s p) ?_
        rw [h1]; rw [hc] at h; simpa using Nat.le_of_succ_le_succ h
    · rw [if_neg hg]
      push_neg at hg
      by_cases hb : (s.max_memory_mb : Int) * 1048576 < s.current_memory_bytes
      · exact Or.inr (hg hb)
      · exact Or.inl (le_of_not_lt hb)

theorem cleanupByMemory_length_le (fuel : Nat) (s : CacheState) :
    (cleanupByMemory fuel s).cache.length ≤ s.cache.length := by
  induction fuel generalizing s with
  | zero => exact Nat.le_refl _
  | succ n ih =>
    unfold cleanupByMemory
    by_cases hg : (s.max_memory_mb : Int) * 1048576 < s.current_memory_bytes ∧ 1 < s.cache.length
    · rw [if_pos hg]
      cases hc : s.cache with
      | nil => rw [hc] at hg; simp at hg
      | cons e rest =>
        obtain ⟨p, it⟩ := e
        have h1 : (removeItem s p).cache = rest := removeItem_head hc
        have h2 := ih (removeItem s p)
        rw [h1] at h2
        simp only [List.length_cons]
        exact Nat.le_succ_of_le h2
    · rw [if_neg hg]

theorem cleanupByMemory_pos (fuel : Nat) (s : CacheState)
    (hpos : 1 ≤ s.cache.length) : 1 ≤ (cleanupByMemory fuel s).cache.length := by
  induction fuel generalizing s with
  | zero => exact hpos
  | succ n ih =>
    unfold cleanupByMemory
    by_cases hg : (s.max_memory_mb : Int) * 1048576 < s.current_memory_bytes ∧ 1 < s.cache.length
    · rw [if_pos hg]
      cases hc : s.cache with
      | nil => rw [hc] at hg; simp at hg
      | cons e rest =>
        obtain ⟨p, it⟩ := e
        have h1 : (removeItem s p).cache = rest := removeItem_head hc
        refine ih (removeItem s p) ?_
        rw [h1]; rw [hc] at hg; simp at hg; omega
    · rw [if_neg hg]
      exact hpos

theorem removeItem_cache_of_some {s : CacheState} {p : String} {it : ImageCacheItem}
    (h : lookupKey p s.cache = some it) : (removeItem s p).cache = eraseKey p s.cache := by
  unfold removeItem
  rw [h]

theorem removeItem_eq_of_none {s : CacheState} {p : String}
    (h : lookupKey p s.cache = none) : removeItem s p = s := by
  unfold removeItem
  rw [h]

theorem cleanupByMemory_suffix (fuel : Nat) (s : CacheState) :
    List.IsSuffix (cleanupByMemory fuel s).cache s.cache := by
  induction fuel generalizing s with
  | zero => exact List.suffix_refl _
  | succ n ih =>
    unfold cleanupByMemory
    by_cases hg : (s.max_memory_mb : Int) * 1048576 < s.current_memory_bytes ∧ 1 < s.cache.length
    · rw [if_pos hg]
      cases hc : s.cache with
      | nil => rw [hc] at hg; simp at hg
      | cons e rest =>
        obtain ⟨p, it⟩ := e
        have h1 : (removeItem s p).cache = rest := removeItem_head hc
        have h2 := ih (removeItem s p)
        rw [h1] at h2
        exact h2.trans (List.suffix_cons (p, it) rest)
    · rw [if_neg hg]

theorem cleanupCache_eq (s : CacheState) :
    cleanupCache s =
      cleanupByMemory (cleanupByItems s.cache.length s).cache.length
        (cleanupByItems s.cache.length s) := rfl

theorem cleanupCache_WF {s : CacheState} (h : WF s) : WF (cleanupCache s) := by
  rw [cleanupCache_eq]
  exact cleanupByMemory_WF _ (cleanupByItems_WF _ h)

theorem cleanupCache_max_items (s : CacheState) :
    (cleanupCache s).max_items = s.max_items := by
  rw [cleanupCache_eq, cleanupByMemory_max_items, cleanupByItems_max_items]

theorem cleanupCache_max_memory (s : CacheState) :
    (cleanupCache s).max_memory_mb = s.max_memory_mb := by
  rw [cleanupCache_eq, cleanupByMemory_max_memory, cleanupByItems_max_memory]

theorem cleanupCache_suffix (s : CacheState) :
    List.IsSuffix (cleanupCache s).cache s.cache := by
  rw [cleanupCache_eq]
  exact (cleanupByMemory_suffix _ _).trans (cleanupByItems_suffix _ _)

theorem cleanupCache_pos (s : CacheState) (hmi : 1 ≤ s.max_items)
    (hpos : 1 ≤ s.cache.length) : 1 ≤ (cleanupCache s).cache.length := by
  rw [cleanupCache_eq]
  exact cleanupByMemory_pos _ _ (cleanupByItems_pos _ _ hmi hpos)

/-- The reachable-state invariant of the cache: well-formedness, the
item-count bound, and the byte bound with the single-survivor escape
hatch of the memory loop. -/
def CacheInv (s : CacheState) : Prop :=
  WF s ∧ s.cache.length ≤ s.max_items ∧
    (sumBytes s.cache ≤ s.max_memory_mb * 1048576 ∨ s.cache.length ≤ 1)

/-- _cleanup_cache establishes the invariant on any well-formed state. -/
theorem cleanupCache_establishes {s : CacheState} (h : WF s) : CacheInv (cleanupCache s) := by
  have hwf := cleanupCache_WF h
  refine ⟨hwf, ?_, ?_⟩
  · rw [cleanupCache_eq, cleanupByMemory_max_items, cleanupByItems_max_items]
    have h1 := cleanupByItems_length s.cache.length s (Nat.le_refl _)
    have h2 := cleanupByMemory_length_le
      (cleanupByItems s.cache.length s).cache.length (cleanupByItems s.cache.length s)
    exact h2.trans h1
  · have hpost := cleanupByMemory_post
      (cleanupByItems s.cache.length s).cache.length (cleanupByItems s.cache.length s)
      (Nat.le_refl _)
    rw [← cleanupCache_eq] at hpost
    rcases hpost with hb | hl
    · left
      rw [hwf.1] at hb
      exact_mod_cast hb
    · right
      exact hl

theorem putImage_inv {s : CacheState} (fs : FS) (now : Nat) (p : String)
    (img : Image) (pix : Pixmap) (h : CacheInv s) :
    CacheInv (putImage fs now s p img pix) := by
  unfold putImage
  by_cases hn : img.isNull
  · rw [if_pos hn]; exact h
  · rw [if_neg hn]
    cases hst : statFile fs p with
    | none => exact h
    | some st =>
      simp only []
      apply cleanupCache_establishes
      obtain ⟨⟨hb, hnd⟩, _, _⟩ := h
      by_cases hmem : (lookupKey p s.cache).isSome
      · rw [if_pos hmem]
        obtain ⟨it, hit⟩ := Option.isSome_iff_exists.mp hmem
        have hrc := removeItem_cache_of_some hit
        have hrw := removeItem_WF p (⟨hb, hnd⟩ : WF s)
        have hnm : p ∉ keys (removeItem s p).cache := by
          rw [hrc]; exact not_mem_keys_eraseKey hnd
        constructor
        · simp only [sumBytes_append_singleton, mkImageCacheItem]
          rw [hrw.1]
          push_cast
          ring
        · exact keys_nodup_append_singleton _ hrw.2 hnm
      · rw [if_neg hmem]
        have hnm : p ∉ keys s.cache := by
          rw [← lookupKey_eq_none_iff]
          cases hlk : lookupKey p s.cache
          · rfl
          · rw [hlk] at hmem; simp at hmem
        constructor
        · simp only [sumBytes_append_singleton, mkImageCacheItem]
          rw [hb]
          push_cast
          ring
        · exact keys_nodup_append_singleton _ hnd hnm

theorem getImage_inv {s : CacheState} (fs : FS) (now : Nat) (p : String)
    (h : CacheInv s) : CacheInv (getImage fs now s p).2 := by
  obtain ⟨⟨hb, hnd⟩, hlen, hmem⟩ := h
  unfold getImage
  split
  · exact ⟨⟨hb, hnd⟩, hlen, hmem⟩
  · split
    · split
      · rename_i st hst item hlk hh
        have hse := sumBytes_eraseKey hlk
        have hle := length_eraseKey hlk
        have hnm : p ∉ keys (eraseKey p s.cache) := not_mem_keys_eraseKey hnd
        have hsum : sumBytes (eraseKey p s.cache ++
            [(p, { item with last_access := now, access_count := item.access_count + 1 })])
            = sumBytes s.cache := by
          rw [sumBytes_append_singleton]
          simpa using hse
        have hlen2 : (eraseKey p s.cache ++
            [(p, { item with last_access := now, access_count := item.access_count + 1 })]).length
            = s.cache.length := by
          simp only [List.length_append, List.length_cons, List.length_nil]
          omega
        refine ⟨⟨?_, ?_⟩, ?_, ?_⟩
        · simp only []
          rw [hsum]
          exact hb
        · exact keys_nodup_append_singleton _ (keys_nodup_eraseKey p hnd) hnm
        · simp only []
          rw [hlen2]
          exact hlen
        · simp only []
          rw [hsum, hlen2]
          exact hmem
      · rename_i st hst item hlk hh
        have hrc := removeItem_cache_of_some hlk
        have hrw := removeItem_WF p (⟨hb, hnd⟩ : WF s)
        have hse := sumBytes_eraseKey hlk
        have hle := length_eraseKey hlk
        refine ⟨⟨hrw.1, hrw.2⟩, ?_, ?_⟩
        · simp only []
          rw [hrc, removeItem_max_items]
          omega
        · simp only []
          rw [hrc, removeItem_max_memory]
          have hsum2 := hrw.1
          rw [hrc] at hsum2
          rcases hmem with hs | hl
          · left
            omega
          · right
            omega
    · exact ⟨⟨hb, hnd⟩, hlen, hmem⟩

theorem setMaxItems_inv {s : CacheState} (mi : Nat) (h : CacheInv s) :
    CacheInv (setMaxItems s mi) :=
  cleanupCache_establishes ⟨h.1.1, h.1.2⟩

theorem setMemoryLimit_inv {s : CacheState} (mm : Nat) (h : CacheInv s) :
    CacheInv (setMemoryLimit s mm) :=
  cleanupCache_establishes ⟨h.1.1, h.1.2⟩

theorem applyCacheOp_inv {s : CacheState} (op : CacheOp) (h : CacheInv s) :
    CacheInv (applyCacheOp s op) := by
  cases op with
  | put fs now p img pix => exact putImage_inv fs now p img pix h
  | get fs now p => exact getImage_inv fs now p h
  | setMax mi => exact setMaxItems_inv mi h
  | setMemory mm => exact setMemoryLimit_inv mm h

theorem runCacheOps_inv (ops : List CacheOp) {s : CacheState} (h : CacheInv s) :
    CacheInv (runCacheOps ops s) := by
  induction ops generalizing s with
  | nil => exact h
  | cons op rest ih => exact ih (applyCacheOp_inv op h)

theorem initCache_inv (mm mi : Nat) : CacheInv (initCache mm mi) := by
  refine ⟨⟨rfl, List.nodup_nil⟩, ?_, ?_⟩
  · simp [initCache]
  · left; simp [initCache, sumBytes]

/-! ## Equation lemmas for get_image / put_image -/

/-- get_image on a cached path whose fingerprint no longer matches:
the stale entry is removed and the call is counted as a miss. -/
theorem getImage_stale {fs : FS} (now : Nat) {s : CacheState} {p : String}
    {it : ImageCacheItem} {st : FileStat}
    (hst : statFile fs p = some st) (hlk : lookupKey p s.cache = some it)
    (hch : ¬ computeHash fs p = it.file_hash) :
    getImage fs now s p = (none, { removeItem s p with misses := (removeItem s p).misses + 1 }) := by
  unfold getImage
  rw [hst, hlk]
  simp only [if_neg hch]

/-- get_image on a cached path whose fingerprint matches returns the
cached buffers. -/
theorem getImage_hit {fs : FS} {now : Nat} {s : CacheState} {p : String}
    {item : ImageCacheItem} {st : FileStat}
    (hst : statFile fs p = some st) (hlk : lookupKey p s.cache = some item)
    (hh : computeHash fs p = item.file_hash) :
    (getImage fs now s p).1 = some (item.image, item.pixmap) := by
  unfold getImage
  rw [hst, hlk]
  simp only [if_pos hh]

/-- put_image of a decodable image for an existing, not-yet-cached path
appends the new entry at the most-recently-used end and runs the cleanup
pass. -/
theorem putImage_eq_new {fs : FS} (now : Nat) {s : CacheState} {p : String}
    {img : Image} (pix : Pixmap) {st : FileStat}
    (hnull : img.isNull = false) (hst : statFile fs p = some st)
    (hnot : lookupKey p s.cache = none) :
    putImage fs now s p img pix =
      cleanupCache { s with
        cache := s.cache ++ [(p, mkImageCacheItem fs p img pix st.size now)],
        current_memory_bytes := s.current_memory_bytes + st.size } := by
  unfold putImage
  rw [hnull, hst, hnot]
  simp only [Option.isSome_none, Bool.false_eq_true, if_false]

/-- In a nonempty suffix of an association list that ends with (p, it)
and whose prefix does not contain p, p looks up to it. -/
theorem lookupKey_suffix_last {α : Type} {p : String} {l t : List (String × α)} {it : α}
    (hpl : p ∉ keys l)
    (hsuf : List.IsSuffix t (l ++ [(p, it)])) (hne : t ≠ []) :
    lookupKey p t = some it := by
  obtain ⟨pre, hpre⟩ := hsuf
  rcases List.eq_nil_or_concat t with rfl | ⟨t2, e, rfl⟩
  · exact absurd rfl hne
  · rw [List.concat_eq_append] at hpre ⊢
    rw [← List.append_assoc] at hpre
    obtain ⟨h1, h2⟩ := List.append_inj' hpre (by simp)
    obtain rfl : e = (p, it) := by simpa using h2
    apply lookupKey_append_last
    intro hp
    apply hpl
    rw [← h1]
    simp only [keys, List.map_append, List.mem_append]
    right
    simpa [keys] using hp

/-- After _cleanup_cache, the most-recently-used entry survives whenever
max_items is at least 1, and still looks up to its value. -/
theorem lookupKey_cleanupCache_last {s : CacheState} {p : String} {it : ImageCacheItem}
    {l : List (String × ImageCacheItem)}
    (hc : s.cache = l ++ [(p, it)]) (hpl : p ∉ keys l) (hmi : 1 ≤ s.max_items) :
    lookupKey p (cleanupCache s).cache = some it := by
  have hsuf := cleanupCache_suffix s
  rw [hc] at hsuf
  have hpos : 1 ≤ (cleanupCache s).cache.length :=
    cleanupCache_pos s hmi (by rw [hc]; simp)
  have hne : (cleanupCache s).cache ≠ [] := by
    intro h0
    rw [h0] at hpos
    simp at hpos
  exact lookupKey_suffix_last hpl hsuf hne

/-! ## Claim C1 -/

/-- C1: for every ImageCacheManager (any configured limits) and every
sequence of operations (put_image, get_image, set_max_items,
set_memory_limit — a superset of the mutating operations the claim
quantifies over), after each operation the cache holds at most max_items
entries, and either the sum of the cached entries byte sizes is at most
the configured memory limit or the cache holds exactly one entry. -/
theorem C1_cache_invariant (mm mi : Nat) (ops : List CacheOp) :
    (runCacheOps ops (initCache mm mi)).cache.length
        ≤ (runCacheOps ops (initCache mm mi)).max_items
    ∧ (sumBytes (runCacheOps ops (initCache mm mi)).cache
          ≤ (runCacheOps ops (initCache mm mi)).max_memory_mb * 1048576
        ∨ (runCacheOps ops (initCache mm mi)).cache.length = 1) := by
  obtain ⟨⟨hb, hnd⟩, hlen, hmem⟩ := runCacheOps_inv ops (initCache_inv mm mi)
  refine ⟨hlen, ?_⟩
  rcases hmem with hs | hl
  · exact Or.inl hs
  · cases hcl : (runCacheOps ops (initCache mm mi)).cache with
    | nil =>
      left
      simp [sumBytes]
    | cons e rest =>
      right
      rw [hcl] at hl
      simp only [List.length_cons] at hl ⊢
      omega

/-! ## Claim C3 -/

/-- C3: for every cached path p whose file fingerprint (modification
time, size) has changed since the entry was created — hch — the next
get_image returns a miss and removes the stale entry; a subsequent
put_image of a decodable image v2 followed by get_image with the file
unchanged hits and returns v2.  Requires max_items at least 1 (otherwise
the cleanup pass empties the cache immediately after every put) and
unique keys, which every reachable state has. -/
theorem C3_fingerprint_roundtrip (fs : FS) (now now2 now3 : Nat) (s : CacheState)
    (p : String) (it : ImageCacheItem) (st : FileStat) (img2 : Image) (pix2 : Pixmap)
    (hnd : (keys s.cache).Nodup)
    (hlk : lookupKey p s.cache = some it)
    (hst : statFile fs p = some st)
    (hch : ¬ computeHash fs p = it.file_hash)
    (hmi : 1 ≤ s.max_items)
    (hnull : img2.isNull = false) :
    (getImage fs now s p).1 = none
    ∧ p ∉ keys (getImage fs now s p).2.cache
    ∧ (getImage fs now3 (putImage fs now2 (getImage fs now s p).2 p img2 pix2) p).1
        = some (img2, pix2) := by
  have hmiss := getImage_stale now hst hlk hch
  have hrc := removeItem_cache_of_some hlk
  have hcache1 : (getImage fs now s p).2.cache = eraseKey p s.cache := by
    rw [hmiss]
    exact hrc
  have hnm : p ∉ keys (getImage fs now s p).2.cache := by
    rw [hcache1]
    exact not_mem_keys_eraseKey hnd
  refine ⟨by rw [hmiss], hnm, ?_⟩
  have hnot : lookupKey p (getImage fs now s p).2.cache = none :=
    (lookupKey_eq_none_iff _ _).mpr hnm
  have hput := putImage_eq_new now2 pix2 hnull hst hnot
  have hmi2 : 1 ≤ ({ (getImage fs now s p).2 with
      cache := (getImage fs now s p).2.cache
        ++ [(p, mkImageCacheItem fs p img2 pix2 st.size now2)],
      current_memory_bytes :=
        (getImage fs now s p).2.current_memory_bytes + st.size }).max_items := by
    simp only []
    rw [hmiss]
    simp only []
    rw [removeItem_max_items]
    exact hmi
  have hlk2 : lookupKey p (putImage fs now2 (getImage fs now s p).2 p img2 pix2).cache
      = some (mkImageCacheItem fs p img2 pix2 st.size now2) := by
    rw [hput]
    exact lookupKey_cleanupCache_last rfl hnm hmi2
  have hh2 : computeHash fs p = (mkImageCacheItem fs p img2 pix2 st.size now2).file_hash := rfl
  exact getImage_hit hst hlk2 hh2

/-- Witness scenario for C3: one cached entry whose stored fingerprint
(mtime 1) differs from the file on disk (mtime 2). -/
def fsStale : FS := [("p", ⟨2, 10, 3, true⟩)]

def itemStale : ImageCacheItem := ⟨"p", ⟨1, false⟩, 1, 10, 0, 1, some (1, 10)⟩

def csStale : CacheState := ⟨500, 100, [("p", itemStale)], 10, 0, 0, 0, 0⟩

/-- Witness for C3 at a concrete stale cache state. -/
theorem C3_fingerprint_roundtrip_witness :
    ((keys csStale.cache).Nodup
      ∧ lookupKey "p" csStale.cache = some itemStale
      ∧ statFile fsStale "p" = some ⟨2, 10, 3, true⟩
      ∧ ¬ computeHash fsStale "p" = itemStale.file_hash
      ∧ 1 ≤ csStale.max_items
      ∧ Image.isNull ⟨4, false⟩ = false)
    ∧ ((getImage fsStale 5 csStale "p").1 = none
      ∧ "p" ∉ keys (getImage fsStale 5 csStale "p").2.cache
      ∧ (getImage fsStale 7 (putImage fsStale 6 (getImage fsStale 5 csStale "p").2 "p"
            ⟨4, false⟩ 4) "p").1 = some (⟨4, false⟩, 4)) :=
  ⟨⟨by decide, by decide, by decide, by decide, by decide, by decide⟩,
   C3_fingerprint_roundtrip fsStale 5 6 7 csStale "p" itemStale ⟨2, 10, 3, true⟩ ⟨4, false⟩ 4
     (by decide) (by decide) (by decide) (by decide) (by decide) (by decide)⟩

/-! ## Claim C4 -/

/-- File system for the LRU scenario: five decodable 1 KiB files. -/
def fsLRU : FS :=
  [("a", ⟨1, 1024, 10, true⟩), ("b", ⟨1, 1024, 11, true⟩), ("c", ⟨1, 1024, 12, true⟩),
   ("d", ⟨1, 1024, 13, true⟩), ("e", ⟨1, 1024, 14, true⟩)]

def imgLRU : Image := ⟨7, false⟩

/-- Cache state after put(a), put(b), put(c), put(d) under max_items = 3. -/
def lruAfterPuts : CacheState :=
  runCacheOps [.put fsLRU 0 "a" imgLRU 7, .put fsLRU 1 "b" imgLRU 7,
               .put fsLRU 2 "c" imgLRU 7, .put fsLRU 3 "d" imgLRU 7] (initCache 500 3)

/-- C4: capacity eviction removes the least-recently-used entry: with
max_items = 3, after put(a..d) the cache is exactly [b, c, d] in LRU
order (a evicted); get(b) promotes b, giving [c, d, b]; put(e) then
evicts c, giving [d, b, e]. -/
theorem C4_lru_eviction :
    keys lruAfterPuts.cache = ["b", "c", "d"]
    ∧ keys (getImage fsLRU 4 lruAfterPuts "b").2.cache = ["c", "d", "b"]
    ∧ keys (putImage fsLRU 5 (getImage fsLRU 4 lruAfterPuts "b").2 "e" imgLRU 7).cache
        = ["d", "b", "e"] := by
  decide

/-! ## Claim C9 -/

/-- C9: is_cached is exactly key membership in the cache map — its type
in this embedding (no file-system argument, Bool result, state returned
untouched) reflects that it performs no fingerprint validation, no
existence check and no state update — and consequently it can answer
true while an immediately following get_image misses on the stale
fingerprint, and the preloader, which skips any path with
is_cached = true, leaves the stale entry in place. -/
theorem C9_is_cached_membership :
    (∀ (s : CacheState) (p : String), isCached s p = true ↔ p ∈ keys s.cache)
    ∧ isCached csStale "p" = true
    ∧ (getImage fsStale 5 csStale "p").1 = none
    ∧ preloaderStep fsStale 5 csStale "p" = csStale := by
  refine ⟨fun s p => ?_, by decide, by decide, by decide⟩
  exact lookupKey_isSome_iff p s.cache

/-! ## Claim C10 -/

/-- C10: get_image for a path that does not exist on disk returns a miss
and leaves the whole cache state unchanged — no miss counter increment,
no stale-entry removal, no recency change. -/
theorem C10_missing_file_get (fs : FS) (now : Nat) (s : CacheState) (p : String)
    (h : statFile fs p = none) : getImage fs now s p = (none, s) := by
  unfold getImage
  rw [h]

/-- Witness for C10: a cache state holding an entry for a path that no
longer exists on disk; get_image leaves the entry and counters alone. -/
theorem C10_missing_file_get_witness :
    statFile ([] : FS) "p" = none ∧ getImage ([] : FS) 0 csStale "p" = (none, csStale) :=
  ⟨rfl, C10_missing_file_get ([] : FS) 0 csStale "p" rfl⟩

/-! ## Claim C8 -/

/-- File system for the hit-rate scenario. -/
def fsHitRate : FS := [("a", ⟨1, 100, 1, true⟩), ("b", ⟨1, 100, 2, true⟩)]

/-- Reachable state with exactly one hit (get a after put a) and one
miss (get b, never cached). -/
def csHitRate : CacheState :=
  runCacheOps [.put fsHitRate 0 "a" ⟨1, false⟩ 1, .get fsHitRate 1 "a", .get fsHitRate 2 "b"]
    (initCache 500 100)

theorem round2_fifty : round2 50 = 50 := by
  unfold round2
  rw [show ((50 : ℚ) * 100) = ((5000 : ℤ) : ℚ) by norm_num, round_intCast]
  norm_num

/-- C8 counterexample: on a reachable state with one hit and one miss,
get_cache_stats reports hit_rate = 50 — the percentage
hits / (hits + misses) * 100 — while the claimed value
hits / (hits + misses) is 1/2, so the claim as stated is false. -/
theorem C8_counterexample :
    csHitRate.hits = 1 ∧ csHitRate.misses = 1
    ∧ (getCacheStats csHitRate).hit_rate = 50
    ∧ (csHitRate.hits : ℚ) / ((csHitRate.hits : ℚ) + (csHitRate.misses : ℚ)) = 1 / 2
    ∧ (getCacheStats csHitRate).hit_rate
        ≠ (csHitRate.hits : ℚ) / ((csHitRate.hits : ℚ) + (csHitRate.misses : ℚ)) := by
  have h1 : csHitRate.hits = 1 := by decide
  have h2 : csHitRate.misses = 1 := by decide
  have h3 : (getCacheStats csHitRate).hit_rate = 50 := by
    simp only [getCacheStats, h1, h2]
    norm_num
    exact round2_fifty
  refine ⟨h1, h2, h3, ?_, ?_⟩
  · rw [h1, h2]
    norm_num
  · rw [h3, h1, h2]
    norm_num

/-- C8 amended: get_cache_stats reports hit_rate as the percentage
100 * hits / (hits + misses), rounded to two decimals, and 0 when no
get requests have been made yet. -/
theorem C8_amended_hit_rate (s : CacheState) :
    (getCacheStats s).hit_rate =
      if s.hits + s.misses = 0 then 0
      else round2 ((s.hits : ℚ) / ((s.hits : ℚ) + (s.misses : ℚ)) * 100) := by
  simp only [getCacheStats]
  by_cases h : s.hits + s.misses = 0
  · rw [if_pos h, if_neg (by omega)]
  · rw [if_neg h, if_pos (Nat.pos_of_ne_zero h)]
    norm_num

/-! ## Claim C2 -/

/-- File system for the priority scenario: three valid small jpg files. -/
def fsPrio : FS :=
  [("a.jpg", ⟨1, 100, 1, true⟩), ("b.jpg", ⟨1, 100, 2, true⟩), ("c.jpg", ⟨1, 100, 3, true⟩)]

/-- The three submissions with priorities 10, 0, 5, in that order,
against an idle single-worker loader and an empty cache. -/
def prioOutcome1 : LoadOutcome :=
  loadImage fsPrio 0 (initLoader 1) (initCache 500 100) "a.jpg" 10 none []

def prioOutcome2 : LoadOutcome :=
  loadImage fsPrio 1 prioOutcome1.loader prioOutcome1.cache "b.jpg" 0 none []

def prioOutcome3 : LoadOutcome :=
  loadImage fsPrio 2 prioOutcome2.loader prioOutcome2.cache "c.jpg" 5 none []

/-- C2 counterexample: the three valid, non-cached, distinct-path tasks
with priorities 10, 0, 5 are all accepted, but the single idle worker
drains the executor FIFO work queue, so they complete in submission
order [10, 0, 5], not in the claimed ascending priority order
[0, 5, 10]. -/
theorem C2_counterexample :
    prioOutcome1.accepted = true ∧ prioOutcome2.accepted = true ∧ prioOutcome3.accepted = true
    ∧ completionOrder prioOutcome3.loader = [10, 0, 5]
    ∧ completionOrder prioOutcome3.loader ≠ [0, 5, 10] := by
  decide

/-- C2 amended: the tasks are handed straight to the executor in
submission order and complete in that order, [10, 0, 5]; the priority
queue receives them (holding them in ascending priority order
[0, 5, 10]) but is never consumed — _process_queue is a no-op — so
priorities do not influence execution order. -/
theorem C2_amended_completion_order :
    completionOrder prioOutcome3.loader = [10, 0, 5]
    ∧ prioOutcome3.loader.task_queue.map (fun t => t.priority) = [0, 5, 10]
    ∧ (∀ ls : LoaderState, processQueue ls = ls) :=
  ⟨by decide, by decide, fun _ => rfl⟩

/-! ## Claim C5 -/

/-- load_image on the cache-hit fast path: full equation under the
validity hypotheses of the claim. -/
theorem getImage_hit_eq {fs : FS} (now : Nat) {s : CacheState} {p : String}
    {item : ImageCacheItem} {st : FileStat}
    (hst : statFile fs p = some st) (hlk : lookupKey p s.cache = some item)
    (hh : computeHash fs p = item.file_hash) :
    getImage fs now s p =
      (some (item.image, item.pixmap),
       { s with
         cache := eraseKey p s.cache ++
           [(p, ⟨item.image_path, item.image, item.pixmap, item.file_size, now,
                 item.access_count + 1, item.file_hash⟩)],
         hits := s.hits + 1 }) := by
  unfold getImage
  rw [hst, hlk]
  simp only [if_pos hh]

theorem loadImage_hit_eq {fs : FS} {now : Nat} {ls : LoaderState} {cs : CacheState}
    {p : String} {prio : Int} {cb : Option Nat} {md : List (String × Nat)}
    {it : ImageCacheItem} {st : FileStat}
    (hst : statFile fs p = some st)
    (hfmt : isSupportedFormat ls p = true)
    (hsize : st.size ≤ ls.max_image_size)
    (hfl : ls.loading_futures.contains p = false)
    (hlk : lookupKey p cs.cache = some it)
    (hfp : computeHash fs p = it.file_hash) :
    loadImage fs now ls cs p prio cb md =
      ⟨true, [LoaderEvent.imageLoaded p it.image it.pixmap],
       { ls with cache_hits := ls.cache_hits + 1 }, (getImage fs now cs p).2⟩ := by
  unfold loadImage
  rw [hst, hfmt, hfl]
  have hget := getImage_hit_eq now hst hlk hfp
  simp only [hget, Nat.not_lt.mpr hsize, if_false, Bool.false_eq_true, if_neg]
  simp

/-- C5 amended: on the cache-hit fast path (existing path, supported
extension, within the size limit, not in flight, valid
fingerprint-matching cache entry) load_image emits the imageLoaded
signal with the cached result, increments both hit counters, schedules
no worker (executor queue, priority queue and total_tasks untouched) and
returns true; the supplied per-call callback is NOT invoked — only the
worker path calls it. -/
theorem C5_amended_cache_hit_fast_path (fs : FS) (now : Nat) (ls : LoaderState)
    (cs : CacheState) (p : String) (prio : Int) (cb : Option Nat)
    (md : List (String × Nat)) (it : ImageCacheItem) (st : FileStat)
    (hst : statFile fs p = some st)
    (hfmt : isSupportedFormat ls p = true)
    (hsize : st.size ≤ ls.max_image_size)
    (hfl : ls.loading_futures.contains p = false)
    (hlk : lookupKey p cs.cache = some it)
    (hfp : computeHash fs p = it.file_hash) :
    (loadImage fs now ls cs p prio cb md).accepted = true
    ∧ (loadImage fs now ls cs p prio cb md).events
        = [LoaderEvent.imageLoaded p it.image it.pixmap]
    ∧ (loadImage fs now ls cs p prio cb md).events.filter isCallbackEvent = []
    ∧ (loadImage fs now ls cs p prio cb md).loader.cache_hits = ls.cache_hits + 1
    ∧ (loadImage fs now ls cs p prio cb md).loader.executorWorkQueue = ls.executorWorkQueue
    ∧ (loadImage fs now ls cs p prio cb md).loader.task_queue = ls.task_queue
    ∧ (loadImage fs now ls cs p prio cb md).loader.total_tasks = ls.total_tasks
    ∧ (loadImage fs now ls cs p prio cb md).cache.hits = cs.hits + 1 := by
  rw [loadImage_hit_eq hst hfmt hsize hfl hlk hfp]
  rw [getImage_hit_eq now hst hlk hfp]
  exact ⟨rfl, rfl, rfl, rfl, rfl, rfl, rfl, rfl⟩

/-- Concrete cache-hit scenario for C5: one valid cached jpg. -/
def fsC5 : FS := [("a.jpg", ⟨1, 100, 7, true⟩)]

def csC5 : CacheState := putImage fsC5 0 (initCache 500 100) "a.jpg" ⟨7, false⟩ 7

/-- C5 counterexample: on a cache hit with a supplied callback (handle
99), load_image returns true and emits only the imageLoaded signal; the
supplied callback is never invoked (no callbackInvoked event), so the
claim that the callback is invoked immediately is false. -/
theorem C5_counterexample :
    (loadImage fsC5 1 (initLoader 4) csC5 "a.jpg" 0 (some 99) []).accepted = true
    ∧ (loadImage fsC5 1 (initLoader 4) csC5 "a.jpg" 0 (some 99) []).events
        = [LoaderEvent.imageLoaded "a.jpg" ⟨7, false⟩ 7]
    ∧ (loadImage fsC5 1 (initLoader 4) csC5 "a.jpg" 0 (some 99) []).events.filter
        isCallbackEvent = []
    ∧ (loadImage fsC5 1 (initLoader 4) csC5 "a.jpg" 0 (some 99) []).loader.total_tasks = 0 := by
  decide

/-- Witness for C5 at the concrete scenario. -/
theorem C5_amended_cache_hit_fast_path_witness :
    (statFile fsC5 "a.jpg" = some ⟨1, 100, 7, true⟩
      ∧ isSupportedFormat (initLoader 4) "a.jpg" = true
      ∧ (100 : Nat) ≤ (initLoader 4).max_image_size
      ∧ (initLoader 4).loading_futures.contains "a.jpg" = false)
    ∧ ((loadImage fsC5 1 (initLoader 4) csC5 "a.jpg" 5 (some 99) []).accepted = true
      ∧ (loadImage fsC5 1 (initLoader 4) csC5 "a.jpg" 5 (some 99) []).loader.cache_hits
          = (initLoader 4).cache_hits + 1
      ∧ (loadImage fsC5 1 (initLoader 4) csC5 "a.jpg" 5 (some 99) []).loader.task_queue
          = (initLoader 4).task_queue) := by
  have h := C5_amended_cache_hit_fast_path fsC5 1 (initLoader 4) csC5 "a.jpg" 5 (some 99) []
      (mkImageCacheItem fsC5 "a.jpg" ⟨7, false⟩ 7 100 0) ⟨1, 100, 7, true⟩
      (by decide) (by decide) (by decide) (by decide) (by decide) (by decide)
  exact ⟨⟨by decide, by decide, by decide, by decide⟩, h.1, h.2.2.2.1, h.2.2.2.2.2.1⟩

/-! ## Claim C6 -/

def taskC6 : LoadTask := mkLoadTask "a.jpg" 5 none [] 0

def lsC6 : LoaderState := { initLoader 4 with loading_futures := ["a.jpg"], total_tasks := 1 }

/-- C6 counterexample: a worker failure on a task with its whole retry
budget left (retry_count 0 < max_retries 3) emits the failure event but
does not re-enqueue the task: the priority queue and the executor queue
are both still empty after the worker runs, refuting the claimed
re-enqueue with incremented retry count. -/
theorem C6_counterexample :
    taskC6.retry_count < taskC6.max_retries
    ∧ (loadImageWorker taskC6 lsC6 (initCache 500 100)).events.head?
        = some (LoaderEvent.imageLoadFailed "a.jpg" errQSize)
    ∧ (loadImageWorker taskC6 lsC6 (initCache 500 100)).loader.task_queue = []
    ∧ (loadImageWorker taskC6 lsC6 (initCache 500 100)).loader.executorWorkQueue = []
    ∧ (loadImageWorker taskC6 lsC6 (initCache 500 100)).result.success = false := by
  decide

/-- C6 amended: every worker invocation fails (the try block raises
NameError on the unimported QSize before any decode), emits a failure
event carrying the path and an error description, and reports the task
as permanently failed immediately: it is never re-enqueued, the
retry_count and max_retries fields are never consulted, and the cache is
untouched. -/
theorem C6_amended_no_retry (task : LoadTask) (ls : LoaderState) (cs : CacheState) :
    (loadImageWorker task ls cs).result.success = false
    ∧ (loadImageWorker task ls cs).result.error = some errQSize
    ∧ (loadImageWorker task ls cs).events.head?
        = some (LoaderEvent.imageLoadFailed task.image_path errQSize)
    ∧ (loadImageWorker task ls cs).loader.task_queue = ls.task_queue
    ∧ (loadImageWorker task ls cs).loader.executorWorkQueue = ls.executorWorkQueue
    ∧ (loadImageWorker task ls cs).cache = cs :=
  ⟨rfl, rfl, rfl, rfl, rfl, rfl⟩

/-! ## Claim C7 -/

theorem cleanupTrace_append (a b : List MonEvent) :
    cleanupTrace (a ++ b) = cleanupTrace a ++ cleanupTrace b :=
  List.filterMap_append a b _

theorem cleanupTrace_invoked (l : List (Nat × Nat)) (b : Bool) :
    cleanupTrace (l.map (fun cb => MonEvent.cleanupInvoked cb.1 b)) =
      l.map (fun cb => (cb.1, b)) := by
  induction l with
  | nil => rfl
  | cons e rest ih =>
    simp only [List.map_cons]
    show (e.1, b) :: cleanupTrace (rest.map (fun cb => MonEvent.cleanupInvoked cb.1 b)) = _
    rw [ih]

theorem freeCaches_state (st : MonState) :
    (freeCaches st).1.warning_threshold_mb = st.warning_threshold_mb
    ∧ (freeCaches st).1.critical_threshold_mb = st.critical_threshold_mb
    ∧ (freeCaches st).1.cleanup_callbacks = st.cleanup_callbacks := by
  simp only [freeCaches]
  split <;> exact ⟨rfl, rfl, rfl⟩

theorem freeCaches_trace (st : MonState) :
    cleanupTrace (freeCaches st).2 = st.cleanup_callbacks.map (fun cb => (cb.1, false)) := by
  simp only [freeCaches]
  split
  · rw [cleanupTrace_append, cleanupTrace_invoked]
    simp [cleanupTrace]
  · exact cleanupTrace_invoked _ _

theorem emergencyCleanup_state (st : MonState) :
    (emergencyCleanup st).1.warning_threshold_mb = st.warning_threshold_mb
    ∧ (emergencyCleanup st).1.critical_threshold_mb = st.critical_threshold_mb
    ∧ (emergencyCleanup st).1.cleanup_callbacks = st.cleanup_callbacks :=
  ⟨(freeCaches_state st).1, (freeCaches_state st).2.1, (freeCaches_state st).2.2⟩

theorem emergencyCleanup_trace (st : MonState) :
    cleanupTrace (emergencyCleanup st).2 =
      st.cleanup_callbacks.map (fun cb => (cb.1, false))
        ++ st.cleanup_callbacks.map (fun cb => (cb.1, true)) := by
  simp only [emergencyCleanup]
  rw [cleanupTrace_append, freeCaches_trace, cleanupTrace_invoked]

theorem handleMemoryWarning_state (st : MonState) :
    (handleMemoryWarning st).1.warning_threshold_mb = st.warning_threshold_mb
    ∧ (handleMemoryWarning st).1.critical_threshold_mb = st.critical_threshold_mb
    ∧ (handleMemoryWarning st).1.cleanup_callbacks = st.cleanup_callbacks :=
  ⟨(freeCaches_state st).1, (freeCaches_state st).2.1, (freeCaches_state st).2.2⟩

theorem handleMemoryWarning_trace (st : MonState) :
    cleanupTrace (handleMemoryWarning st).2 =
      st.cleanup_callbacks.map (fun cb => (cb.1, false)) := by
  simp only [handleMemoryWarning]
  show cleanupTrace (freeCaches st).2 = _
  exact freeCaches_trace st

theorem handleCriticalMemory_state (st : MonState) :
    (handleCriticalMemory st).1.warning_threshold_mb = st.warning_threshold_mb
    ∧ (handleCriticalMemory st).1.critical_threshold_mb = st.critical_threshold_mb
    ∧ (handleCriticalMemory st).1.cleanup_callbacks = st.cleanup_callbacks :=
  ⟨(emergencyCleanup_state _).1, (emergencyCleanup_state _).2.1,
   (emergencyCleanup_state _).2.2⟩

theorem handleCriticalMemory_trace (st : MonState) :
    cleanupTrace (handleCriticalMemory st).2 =
      st.cleanup_callbacks.map (fun cb => (cb.1, false))
        ++ st.cleanup_callbacks.map (fun cb => (cb.1, true)) := by
  simp only [handleCriticalMemory]
  show cleanupTrace (emergencyCleanup { st with emergency_mode := true }).2 = _
  exact emergencyCleanup_trace { st with emergency_mode := true }

theorem monitorStep_state (st : MonState) (m : Nat) :
    (monitorStep st m).1.warning_threshold_mb = st.warning_threshold_mb
    ∧ (monitorStep st m).1.critical_threshold_mb = st.critical_threshold_mb
    ∧ (monitorStep st m).1.cleanup_callbacks = st.cleanup_callbacks := by
  simp only [monitorStep]
  split
  · exact ⟨(handleCriticalMemory_state _).1, (handleCriticalMemory_state _).2.1,
     (handleCriticalMemory_state _).2.2⟩
  · split
    · exact ⟨(handleMemoryWarning_state _).1, (handleMemoryWarning_state _).2.1,
       (handleMemoryWarning_state _).2.2⟩
    · exact ⟨rfl, rfl, rfl⟩

theorem monitorStep_trace (st : MonState) (m : Nat) :
    cleanupTrace (monitorStep st m).2 =
      if st.critical_threshold_mb ≤ m then
        st.cleanup_callbacks.map (fun cb => (cb.1, false))
          ++ st.cleanup_callbacks.map (fun cb => (cb.1, true))
      else if st.warning_threshold_mb ≤ m then
        st.cleanup_callbacks.map (fun cb => (cb.1, false))
      else [] := by
  simp only [monitorStep]
  by_cases h1 : st.critical_threshold_mb ≤ m
  · rw [if_pos h1, if_pos h1]
    exact handleCriticalMemory_trace _
  · rw [if_neg h1, if_neg h1]
    by_cases h2 : st.warning_threshold_mb ≤ m
    · rw [if_pos h2, if_pos h2]
      exact handleMemoryWarning_trace _
    · rw [if_neg h2, if_neg h2]
      rfl

/-- C7 amended: cleanup-callback invocation is level-triggered per
sample, not once per threshold crossing: on a sample below the warning
threshold no callback runs; on a sample in [warning, critical) every
registered callback is invoked once with emergency=false; on a sample at
or above critical every callback is invoked twice — first with
emergency=false (inside the cache-freeing pass of the critical handler)
and then with emergency=true. -/
theorem C7_amended_cleanup_trace (st : MonState) (samples : List Nat) :
    cleanupTrace (monitorRun st samples).2 =
      samples.flatMap (fun m =>
        if st.critical_threshold_mb ≤ m then
          st.cleanup_callbacks.map (fun cb => (cb.1, false))
            ++ st.cleanup_callbacks.map (fun cb => (cb.1, true))
        else if st.warning_threshold_mb ≤ m then
          st.cleanup_callbacks.map (fun cb => (cb.1, false))
        else []) := by
  induction samples generalizing st with
  | nil => rfl
  | cons m rest ih =>
    show cleanupTrace ((monitorStep st m).2 ++ (monitorRun (monitorStep st m).1 rest).2) = _
    rw [cleanupTrace_append, monitorStep_trace, ih, List.flatMap_cons]
    obtain ⟨hw, hc, hcb⟩ := monitorStep_state st m
    rw [hw, hc, hcb]

def monC7 : MonState := initMon 800 1200 [(0, 5)]

/-- C7 counterexample: thresholds 800 / 1200 MB, one registered cleanup
callback; samples 900 (crosses warning), 1300 (crosses critical), 100
(drops below warning).  The claim predicts exactly one invocation per
crossing, [(0, false), (0, true)]; the code invokes the callback on the
critical sample twice — once with emergency=false inside the
cache-freeing pass, then with emergency=true — giving
[(0, false), (0, false), (0, true)]. -/
theorem C7_counterexample :
    cleanupTrace (monitorRun monC7 [900, 1300, 100]).2
        = [(0, false), (0, false), (0, true)]
    ∧ cleanupTrace (monitorRun monC7 [900, 1300, 100]).2 ≠ [(0, false), (0, true)] := by
  decide

end Annotator
